import Mathlib

/-!
# Verification of the markdown-notes-app synchronization core

This file gives a shallow embedding, in Lean 4, of the Git-based notes
synchronization subsystem of the markdown-notes-app repository
(`git_versioning.py` and the GitHub-API sync portion of `main.py`), and
proves or refutes the frozen specification claims about it.

Modelling conventions:
* Python strings are modelled as `List Char`; Python byte strings as
  `List Nat` (one `Nat` per byte).
* Commit identifiers (git hashes held in local variables) are modelled as
  `Nat` values where only their identity matters.
* Calls to the external `git` binary are modelled by oracle records
  ("effects") that fix the observable outcome of each command, and by
  explicit state-passing for the commands that mutate the repository
  (branch creation, forced reset, commits).  Each embedded function also
  returns the trace of git commands it issues, so that "operation X was
  never attempted" claims are expressible.
-/

namespace NotesSync

/-! ## Python string primitives (ASCII semantics, as used by the source) -/

/-- ASCII whitespace recognised by Python's `str.strip()` (the source never
strips non-ASCII whitespace from git output in a way the claims depend on). -/
def pyIsSpace (c : Char) : Bool :=
  c == ' ' || c == '\t' || c == '\n' || c == '\x0d' || c == '\x0b' || c == '\x0c'

/-- Python `str.strip()`. -/
def pyStrip (s : List Char) : List Char :=
  ((s.dropWhile pyIsSpace).reverse.dropWhile pyIsSpace).reverse

/-- Python `str.lstrip("/\\")`: drop leading `/` and `\` characters. -/
def lstripSlashes (s : List Char) : List Char :=
  s.dropWhile (fun c => c == '/' || c == '\\')

/-- Python `str.split("/")` (keeps empty pieces, as Python does). -/
def splitSlashAux : List Char → List Char → List (List Char)
  | [], acc => [acc.reverse]
  | c :: rest, acc =>
      if c == '/' then acc.reverse :: splitSlashAux rest []
      else splitSlashAux rest (c :: acc)

def splitSlash (s : List Char) : List (List Char) :=
  splitSlashAux s []

/-- Python `str.isalnum` for a single character, modelled exactly for code
points below U+0100 per the Unicode character database: ASCII digits and
letters; the Latin-1 letters U+00AA, U+00B5, U+00BA, U+00C0–U+00D6,
U+00D8–U+00F6, U+00F8–U+00FF; and the Latin-1 numeric characters U+00B2,
U+00B3, U+00B9, U+00BC, U+00BD, U+00BE.  (U+00D7 `×` and U+00F7 `÷` are
symbols, not alphanumeric.)  Code points at or above U+0100 are outside the
model and mapped to `false`; all theorems about hostnames either restrict to
this range or to ASCII. -/
def pyIsAlnum (c : Char) : Bool :=
  let n := c.toNat
  decide ((48 ≤ n ∧ n ≤ 57) ∨ (65 ≤ n ∧ n ≤ 90) ∨ (97 ≤ n ∧ n ≤ 122) ∨
    n = 0xAA ∨ n = 0xB5 ∨ n = 0xBA ∨ n = 0xB2 ∨ n = 0xB3 ∨ n = 0xB9 ∨
    n = 0xBC ∨ n = 0xBD ∨ n = 0xBE ∨
    (0xC0 ≤ n ∧ n ≤ 0xD6) ∨ (0xD8 ≤ n ∧ n ≤ 0xF6) ∨ (0xF8 ≤ n ∧ n ≤ 0xFF))

/-! ## Decimal rendering (Python `str(n)` / zero-padded `strftime` fields) -/

def digitChar (d : Nat) : Char :=
  match d % 10 with
  | 0 => '0' | 1 => '1' | 2 => '2' | 3 => '3' | 4 => '4'
  | 5 => '5' | 6 => '6' | 7 => '7' | 8 => '8' | _ => '9'

/-- Render `n` in decimal, most significant digit first.  The first argument
is fuel; `natDigits` supplies enough. -/
def natDigitsAux : Nat → Nat → List Char → List Char
  | 0, _, acc => acc
  | fuel + 1, n, acc =>
      if n < 10 then digitChar n :: acc
      else natDigitsAux fuel (n / 10) (digitChar (n % 10) :: acc)

def natDigits (n : Nat) : List Char :=
  natDigitsAux (n + 1) n []

/-- Zero-pad a decimal rendering to width `w` (as `strftime` does for
`%Y`, `%m`, `%d`, `%H`, `%M`, `%S`). -/
def padNum (w n : Nat) : List Char :=
  List.replicate (w - (natDigits n).length) '0' ++ natDigits n

/-- A UTC timestamp as captured by `datetime.utcnow()`. -/
structure Timestamp where
  year : Nat
  month : Nat
  day : Nat
  hour : Nat
  minute : Nat
  second : Nat

/-- `datetime.utcnow().strftime("%Y%m%d-%H%M%S")` (git_versioning.py line 342). -/
def formatTimestamp (t : Timestamp) : List Char :=
  padNum 4 t.year ++ padNum 2 t.month ++ padNum 2 t.day ++ ['-'] ++
    padNum 2 t.hour ++ padNum 2 t.minute ++ padNum 2 t.second

/-! ## Conflict branch naming (git_versioning.py lines 342–345) -/

/-- `CONFLICT_BRANCH_PREFIX = "conflict"` (git_versioning.py line 12). -/
def CONFLICT_BRANCH_PREFIX : List Char := "conflict".data

/-- `socket.gethostname().split(".")[0]`: the first dot-separated label. -/
def firstHostLabel (host : List Char) : List Char :=
  host.takeWhile (fun c => c ≠ '.')

/-- `"".join(ch for ch in host if ch.isalnum() or ch in ("-", "_")) or "host"`
(git_versioning.py line 344). -/
def safeHost (host : List Char) : List Char :=
  let kept := host.filter (fun ch => pyIsAlnum ch || ch == '-' || ch == '_')
  if kept = [] then "host".data else kept

/-- `f"{CONFLICT_BRANCH_PREFIX}-{timestamp}-{safe_host}"`
(git_versioning.py lines 342–345), including the `split(".")[0]` on the
hostname from line 343. -/
def conflictBranchName (ts : Timestamp) (hostname : List Char) : List Char :=
  CONFLICT_BRANCH_PREFIX ++ ['-'] ++ formatTimestamp ts ++ ['-'] ++
    safeHost (firstHostLabel hostname)

/-! ## Token redaction (git_versioning.py lines 51–57) -/

/-- `isPre t l = true` iff `t` is a (list) prefix of `l`. -/
def isPre : List Char → List Char → Bool
  | [], _ => true
  | _ :: _, [] => false
  | a :: as, b :: bs => a == b && isPre as bs

/-- Python `str.replace(tok, rep)` for a non-empty `tok`: scan left to right,
replace each non-overlapping occurrence, and continue scanning after the
replacement text (the replacement is not rescanned). -/
def replaceAll (tok rep : List Char) (msg : List Char) : List Char :=
  match msg with
  | [] => []
  | c :: rest =>
      if h : tok ≠ [] ∧ isPre tok (c :: rest) = true then
        rep ++ replaceAll tok rep (List.drop tok.length (c :: rest))
      else
        c :: replaceAll tok rep rest
termination_by msg.length
decreasing_by
  · have hlen : 1 ≤ tok.length := List.length_pos.mpr h.1
    simp only [List.length_drop, List.length_cons]
    omega
  · simp

/-- Python `tok in msg` (substring containment). -/
def hasSub (tok : List Char) : List Char → Bool
  | [] => tok.isEmpty
  | c :: rest => isPre tok (c :: rest) || hasSub tok rest

/-- `_sanitize_git_error` (git_versioning.py lines 51–57): redact the
`GITHUB_API_KEY` token (passed here explicitly as `token`, modelling
`os.getenv`) from the message by replacing it with `"****"`. -/
def sanitize_git_error (token msg : List Char) : List Char :=
  if token ≠ [] ∧ hasSub token msg = true then replaceAll token "****".data msg
  else msg

/-- The character class `[A-Za-z0-9_-]` from claim C3: code points 65–90
(`A`–`Z`), 97–122 (`a`–`z`), 48–57 (`0`–`9`), 95 (`_`) and 45 (`-`). -/
def refSafeChar (c : Char) : Bool :=
  let n := c.toNat
  decide ((65 ≤ n ∧ n ≤ 90) ∨ (97 ≤ n ∧ n ≤ 122) ∨ (48 ≤ n ∧ n ≤ 57) ∨
    n = 95 ∨ n = 45)

/-- The conflict-branch name exactly as the specification's words describe it
(spec §4.5 step 7b): `"conflict-" + ts + "-" + sanitizedHostname` where
`sanitizedHostname` keeps only alphanumerics, `-`, `_` from the first DNS
label of the hostname, falling back to `"host"`.  Used to compare the
source-derived `conflictBranchName` against the spec text. -/
def claimBranchName (ts : Timestamp) (hostname : List Char) : List Char :=
  let kept := (hostname.takeWhile (fun c => c ≠ '.')).filter
    (fun c => pyIsAlnum c || c == '-' || c == '_')
  "conflict-".data ++ formatTimestamp ts ++ "-".data ++
    (if kept = [] then "host".data else kept)

/-! ## Git command traces

Each embedded sync operation returns, besides its result, the list of git
commands its body issues, so that claims of the form "no push/pull was
attempted" are expressible.  `_ensure_repo` / `_ensure_user_identity` issue
only `init`/`remote`/`config` commands (git_versioning.py lines 73–116) and
are abstracted into the `ensureRepo` trace element. -/

inductive GitCmd where
  | ensureRepo
  | remoteGetUrl
  | revParseAbbrevHead
  | revParseHead
  | revParseRemote
  | addAll
  | statusPorcelain
  | commitCmd
  | pushCmd
  | fetch
  | pullRebase
  | rebaseAbort
  | branchCreate
  | branchForce
deriving DecidableEq

/-! ## Push engine (git_versioning.py lines 183–251) -/

/-- Oracle for the outcomes of the git commands `_push_notes` runs:
`remoteOk` is the exit status of `git remote get-url origin`; `branch` is the
branch name resolved by `_get_current_branch` (`none` for failure or detached
HEAD, with `branchErr` the non-empty error message it reported, if any);
`pushOk`/`pushErr` are the outcome of `git push origin <branch>`.  `token` is
the `GITHUB_API_KEY` value read by `_sanitize_git_error`. -/
structure PushFx where
  token : List Char
  remoteOk : Bool
  branch : Option (List Char)
  branchErr : Option (List Char)
  pushOk : Bool
  pushErr : List Char

/-- The push-status dictionary built by `_push_notes` (keys `status`,
`detail`, `remote`, `branch`; absent keys are `none`). -/
structure PushInfo where
  status : List Char
  detail : Option (List Char)
  remote : Option (List Char)
  branch : Option (List Char)
deriving DecidableEq

/-- `_push_notes` (git_versioning.py lines 183–214).  The public wrapper
`push_notes` (lines 237–251) runs `_ensure_repo` first and returns
`{"pushed": fst, "push": snd}` of this value; it adds no further logic.
The function is total: no failure mode raises. -/
def push_notes (fx : PushFx) : (Bool × PushInfo) × List GitCmd :=
  if fx.remoteOk = false then
    ((false, ⟨"skipped".data, some "No 'origin' remote configured.".data, none, none⟩),
      [GitCmd.remoteGetUrl])
  else
    match fx.branch with
    | none =>
        ((false,
          ⟨"skipped".data,
            some (fx.branchErr.getD
              "Repository is in a detached HEAD state; cannot determine branch to push.".data),
            none, none⟩),
          [GitCmd.remoteGetUrl, GitCmd.revParseAbbrevHead])
    | some b =>
        if fx.pushOk = false then
          ((false, ⟨"error".data, some (sanitize_git_error fx.token fx.pushErr), none, none⟩),
            [GitCmd.remoteGetUrl, GitCmd.revParseAbbrevHead, GitCmd.pushCmd])
        else
          ((true, ⟨"ok".data, none, some "origin".data, some b⟩),
            [GitCmd.remoteGetUrl, GitCmd.revParseAbbrevHead, GitCmd.pushCmd])

/-! ## Commit engine (git_versioning.py lines 141–180) -/

/-- Oracle for the git command outcomes inside `_commit_notes`: `statusOk` is
the exit status of `git status --porcelain`; `commitOk`/`commitErr` the
outcome of `git commit -m`; `newCommitId` the id of the commit that a
successful `git commit` creates; `revParseOk` the exit status of the
`rev-parse HEAD` in `_get_head_hexsha`.  `message` is the caller-supplied
commit message (`none` models Python `None`/empty) and `defaultMessage` the
generated `"Auto-commit notes at <timestamp>Z"` fallback. -/
structure CommitFx where
  token : List Char
  statusOk : Bool
  commitOk : Bool
  commitErr : List Char
  revParseOk : Bool
  message : Option (List Char)
  defaultMessage : List Char
  newCommitId : Nat

/-- The observable working-tree state `_commit_notes` interacts with:
`statusOut` is what `git status --porcelain` prints after `git add -A`
(empty exactly when there are no staged differences), and `head` the commit
the repository HEAD points at.  A successful `git commit` empties the staged
diff and advances `head`; nothing else in `_commit_notes` mutates either. -/
structure WorkTree where
  statusOut : List Char
  head : Option Nat
deriving DecidableEq

/-- The `CommitResult` dataclass (git_versioning.py lines 15–20), with the
commit hash modelled as a `Nat` id. -/
structure CommitResult where
  committed : Bool
  hexsha : Option Nat
  message : Option (List Char)
  summary : Option (List Char)
deriving DecidableEq

/-- `_commit_notes` (git_versioning.py lines 141–180): stage everything,
report "No changes to commit" if the staged diff is empty, otherwise commit.
`commit_notes_only` (lines 217–234) returns `{"committed": …, "commit": …}`
of this value and adds no further logic. -/
def commit_notes (fx : CommitFx) (wt : WorkTree) : WorkTree × CommitResult :=
  let dirty := fx.statusOk && !(pyStrip wt.statusOut).isEmpty
  if dirty = false then
    (wt, ⟨false, none, none, some "No changes to commit".data⟩)
  else
    let message := fx.message.getD fx.defaultMessage
    if fx.commitOk = false then
      let s := sanitize_git_error fx.token fx.commitErr
      (wt, ⟨false, none, none, some (if s = [] then "Commit failed".data else s)⟩)
    else
      (⟨[], some fx.newCommitId⟩,
        ⟨true, if fx.revParseOk then some fx.newCommitId else none, some message, none⟩)

/-! ## Pull/rebase engine (git_versioning.py lines 282–366) -/

/-- Oracle for the git command outcomes inside `pull_notes_with_rebase`:
`remoteOk`, `branch`/`branchErr` as in `PushFx`; `pullOk`/`pullErr` the
outcome of `git pull --rebase origin <branch>`; `localAfter` the HEAD read
after a successful pull; `fetchedTip` the value `git fetch origin` leaves in
the remote-tracking ref (`none` models a failed/no-op fetch, which the source
swallows); `pullLeavesRebase` whether the failed pull leaves a rebase in
progress; `abortOk` the outcome of `git rebase --abort`; `createOk` the
outcome of `git branch <conflict> <localBefore>`; `resetOk` whether
`git branch -f <branch> origin/<branch>` succeeds when the remote-tracking
ref resolves; `parentsAfter` the commit graph after a successful rebase. -/
structure PullFx where
  token : List Char
  remoteOk : Bool
  branch : Option (List Char)
  branchErr : Option (List Char)
  pullOk : Bool
  pullErr : List Char
  localAfter : Option Nat
  fetchedTip : Option Nat
  pullLeavesRebase : Bool
  abortOk : Bool
  createOk : Bool
  resetOk : Bool
  parentsAfter : List (Nat × List Nat)
  ts : Timestamp
  hostname : List Char

/-- Repository state visible to the pull engine: the branch refs (name ↦
commit id), the remote-tracking ref `origin/<branch>` (`none` when it does
not resolve, e.g. before any fetch), the commit graph (commit ↦ parent
commits), and whether a rebase is in progress. -/
structure RepoState where
  refs : List (List Char × Nat)
  remoteTip : Option Nat
  parents : List (Nat × List Nat)
  rebaseInProgress : Bool
deriving DecidableEq

def lookupRef (refs : List (List Char × Nat)) (name : List Char) : Option Nat :=
  match refs.find? (fun p => p.1 == name) with
  | some p => some p.2
  | none => none

def setRef (refs : List (List Char × Nat)) (name : List Char) (v : Nat) :
    List (List Char × Nat) :=
  match refs with
  | [] => [(name, v)]
  | (n, x) :: rest => if n == name then (n, v) :: rest else (n, x) :: setRef rest name v

def parentsOf (ps : List (Nat × List Nat)) (c : Nat) : List Nat :=
  match ps.find? (fun p => p.1 == c) with
  | some p => p.2
  | none => []

/-- Commits reachable from `frontier` (fuel-bounded depth-first search over
the parent graph), accumulated into `visited`. -/
def reachAux (ps : List (Nat × List Nat)) : Nat → List Nat → List Nat → List Nat
  | 0, _, visited => visited
  | _ + 1, [], visited => visited
  | fuel + 1, c :: rest, visited =>
      if visited.contains c then reachAux ps fuel rest visited
      else reachAux ps fuel (parentsOf ps c ++ rest) (c :: visited)

/-- Commits reachable from commit `c`, with explicit search fuel. -/
def reachable (ps : List (Nat × List Nat)) (fuel c : Nat) : List Nat :=
  reachAux ps fuel [c] []

/-- The value of `origin/<branch>` after the `git fetch origin` on line 322:
the fetched tip when the fetch updated the ref, the pre-fetch value
otherwise (fetch failures are swallowed by the source). -/
def fetchTipAfter (fx : PullFx) (st : RepoState) : Option Nat :=
  match fx.fetchedTip with
  | some t => some t
  | none => st.remoteTip

/-- The `Pull Result` dictionary shapes returned by `pull_notes_with_rebase`. -/
inductive PullResult where
  | skipped (detail : List Char)
  | error (detail : List Char)
  | ok (branch : List Char) (localBefore localAfter remoteBefore : Option Nat)
  | conflict (branch : List Char) (localBefore remoteBefore : Option Nat)
      (conflictBranch : Option (List Char)) (resetStatus : Option (List Char))
      (error : List Char)
deriving DecidableEq

def conflictBranchOf : PullResult → Option (List Char)
  | .conflict _ _ _ cb _ _ => cb
  | _ => none

def resetStatusOf : PullResult → Option (List Char)
  | .conflict _ _ _ _ rs _ => rs
  | _ => none

def pullErrorOf : PullResult → Option (List Char)
  | .conflict _ _ _ _ _ e => some e
  | _ => none

/-- The `except` block of `pull_notes_with_rebase` (git_versioning.py lines
338–366): best-effort `git rebase --abort`; create the conflict branch at
`localBefore` when it was captured; force the working branch to
`origin/<branch>` when `remoteBefore` was captured (the forced reset can only
succeed when that ref resolves, whose post-fetch value is `remoteTip`).
`localBefore` and `remoteBefore` are the identifiers captured on lines
315–319. -/
def pullRecovery (fx : PullFx) (branch : List Char)
    (localBefore remoteBefore : Option Nat) (st : RepoState) :
    (RepoState × PullResult) × List GitCmd :=
  let afterAbort : Bool := st.rebaseInProgress && !fx.abortOk
  let name := conflictBranchName fx.ts fx.hostname
  let createPair : List (List Char × Nat) × Bool :=
    match localBefore with
    | some l => if fx.createOk then (setRef st.refs name l, true) else (st.refs, false)
    | none => (st.refs, false)
  let createCmds : List GitCmd :=
    match localBefore with
    | some _ => [GitCmd.branchCreate]
    | none => []
  let resetTriple : List (List Char × Nat) × Option (List Char) × List GitCmd :=
    match remoteBefore with
    | some _ =>
        let okReset :=
          match st.remoteTip, fx.resetOk with
          | some _, true => true
          | _, _ => false
        ((match st.remoteTip, fx.resetOk with
          | some t, true => setRef createPair.1 branch t
          | _, _ => createPair.1),
          some (if okReset then "reset-to-remote".data else "reset-failed".data),
          [GitCmd.branchForce])
    | none => (createPair.1, none, [])
  ((⟨resetTriple.1, st.remoteTip, st.parents, afterAbort⟩,
    PullResult.conflict branch localBefore remoteBefore
      (if createPair.2 then some name else none)
      resetTriple.2.1
      (sanitize_git_error fx.token
        (if fx.pullErr = [] then "git pull --rebase failed".data else fx.pullErr))),
    GitCmd.rebaseAbort :: (createCmds ++ resetTriple.2.2))

/-- `pull_notes_with_rebase` (git_versioning.py lines 282–366), with the
repository state threaded explicitly.  `localBefore` is the pre-pull HEAD of
the active branch; `remoteBefore` the pre-fetch remote-tracking tip. -/
def pull_notes_with_rebase (fx : PullFx) (st : RepoState) :
    (RepoState × PullResult) × List GitCmd :=
  if fx.remoteOk = false then
    ((st, .skipped "No 'origin' remote configured.".data),
      [GitCmd.ensureRepo, GitCmd.remoteGetUrl])
  else
    match fx.branch with
    | none =>
        ((st, .error (fx.branchErr.getD
            "Repository is in a detached HEAD state; cannot pull.".data)),
          [GitCmd.ensureRepo, GitCmd.remoteGetUrl, GitCmd.revParseAbbrevHead])
    | some branch =>
        let localBefore := lookupRef st.refs branch
        let remoteBefore := st.remoteTip
        let stFetched : RepoState :=
          ⟨st.refs, fetchTipAfter fx st, st.parents, st.rebaseInProgress⟩
        let cmdsPre : List GitCmd :=
          [GitCmd.ensureRepo, GitCmd.remoteGetUrl, GitCmd.revParseAbbrevHead,
            GitCmd.revParseHead, GitCmd.revParseRemote, GitCmd.fetch, GitCmd.pullRebase]
        if fx.pullOk then
          let refsAfter :=
            match fx.localAfter with
            | some a => setRef stFetched.refs branch a
            | none => stFetched.refs
          ((⟨refsAfter, stFetched.remoteTip, fx.parentsAfter, false⟩,
            .ok branch localBefore fx.localAfter remoteBefore),
            cmdsPre ++ [GitCmd.revParseHead])
        else
          let stFail : RepoState :=
            ⟨stFetched.refs, stFetched.remoteTip, stFetched.parents, fx.pullLeavesRebase⟩
          let r := pullRecovery fx branch localBefore remoteBefore stFail
          (r.1, cmdsPre ++ r.2)

/-- Reachable set seen from a named branch of a repository state. -/
def reachableFromRef (st : RepoState) (name : List Char) (fuel : Nat) : List Nat :=
  match lookupRef st.refs name with
  | some t => reachable st.parents fuel t
  | none => []

/-! ## Git blob hashing (main.py lines 385–389)

`_compute_git_blob_sha(content) = hashlib.sha1(f"blob {len(content)}\0"
.encode("utf-8") + content).hexdigest()`.  SHA-1 is embedded below in full
(FIPS 180-4), operating on byte lists with 32-bit words as `Nat` reduced
modulo `2^32`. -/

def w32 (n : Nat) : Nat := n % 4294967296

/-- Rotate a 32-bit word left by `s` (exact for `x < 2^32`). -/
def rotl32 (s x : Nat) : Nat := w32 (x * 2 ^ s) + x / 2 ^ (32 - s)

/-- Number of zero padding bytes: pad `msg ++ [0x80] ++ zeros` to 56 mod 64. -/
def sha1ZeroPad (l : Nat) : Nat := (119 - l % 64) % 64

/-- The 8-byte big-endian bit length trailer. -/
def bitLenBytes (l : Nat) : List Nat :=
  [8 * l / 2 ^ 56 % 256, 8 * l / 2 ^ 48 % 256, 8 * l / 2 ^ 40 % 256,
    8 * l / 2 ^ 32 % 256, 8 * l / 2 ^ 24 % 256, 8 * l / 2 ^ 16 % 256,
    8 * l / 2 ^ 8 % 256, 8 * l % 256]

def sha1Pad (msg : List Nat) : List Nat :=
  msg ++ 128 :: List.replicate (sha1ZeroPad msg.length) 0 ++ bitLenBytes msg.length

/-- Split into 64-byte chunks (fuel = length, consumed 64 at a time). -/
def chunks64Aux : Nat → List Nat → List (List Nat)
  | 0, _ => []
  | fuel + 1, l => if l = [] then [] else l.take 64 :: chunks64Aux fuel (l.drop 64)

def chunks64 (l : List Nat) : List (List Nat) := chunks64Aux l.length l

/-- Big-endian 32-bit words of a 64-byte chunk. -/
def wordsOfChunk : List Nat → List Nat
  | b0 :: b1 :: b2 :: b3 :: rest =>
      (((b0 * 256 + b1) * 256 + b2) * 256 + b3) :: wordsOfChunk rest
  | _ => []

/-- Message-schedule extension, producing the 80 words in reverse order:
`w[i] = rotl1 (w[i-3] xor w[i-8] xor w[i-14] xor w[i-16])`. -/
def extendWords : Nat → List Nat → List Nat
  | 0, acc => acc
  | n + 1, acc =>
      extendWords n
        (w32 (rotl32 1 (acc.getD 2 0 ^^^ acc.getD 7 0 ^^^ acc.getD 13 0 ^^^
          acc.getD 15 0)) :: acc)

def sha1Words (chunk : List Nat) : List Nat :=
  (extendWords 64 (wordsOfChunk chunk).reverse).reverse

structure Sha1State where
  a : Nat
  b : Nat
  c : Nat
  d : Nat
  e : Nat

def sha1F (i b c d : Nat) : Nat :=
  if i < 20 then (b &&& c) ||| ((b ^^^ 4294967295) &&& d)
  else if i < 40 then b ^^^ c ^^^ d
  else if i < 60 then (b &&& c) ||| (b &&& d) ||| (c &&& d)
  else b ^^^ c ^^^ d

def sha1K (i : Nat) : Nat :=
  if i < 20 then 1518500249
  else if i < 40 then 1859775393
  else if i < 60 then 2400959708
  else 3395469782

def sha1Round (st : Sha1State) (iw : Nat × Nat) : Sha1State :=
  ⟨w32 (rotl32 5 st.a + sha1F iw.1 st.b st.c st.d + st.e + sha1K iw.1 + iw.2),
    st.a, w32 (rotl32 30 st.b), st.c, st.d⟩

def processChunk (h : Sha1State) (chunk : List Nat) : Sha1State :=
  let final := ((sha1Words chunk).enum).foldl sha1Round h
  ⟨w32 (h.a + final.a), w32 (h.b + final.b), w32 (h.c + final.c),
    w32 (h.d + final.d), w32 (h.e + final.e)⟩

def sha1Init : Sha1State :=
  ⟨1732584193, 4023233417, 2562383102, 271733878, 3285377520⟩

/-- The 160-bit SHA-1 digest of a byte list, as a natural number. -/
def sha1Nat (msg : List Nat) : Nat :=
  let h := (chunks64 (sha1Pad msg)).foldl processChunk sha1Init
  (((h.a * 4294967296 + h.b) * 4294967296 + h.c) * 4294967296 + h.d) *
    4294967296 + h.e

def hexDigit (d : Nat) : Char :=
  match d % 16 with
  | 0 => '0' | 1 => '1' | 2 => '2' | 3 => '3' | 4 => '4'
  | 5 => '5' | 6 => '6' | 7 => '7' | 8 => '8' | 9 => '9'
  | 10 => 'a' | 11 => 'b' | 12 => 'c' | 13 => 'd' | 14 => 'e' | _ => 'f'

/-- Fixed-width hex rendering (`width` nibbles, leading zeros kept), matching
`hexdigest()` for a 160-bit value at width 40. -/
def natHexAux : Nat → Nat → List Char → List Char
  | 0, _, acc => acc
  | fuel + 1, n, acc => natHexAux fuel (n / 16) (hexDigit (n % 16) :: acc)

/-- `hashlib.sha1(msg).hexdigest()`. -/
def sha1Hex (msg : List Nat) : List Char := natHexAux 40 (sha1Nat msg) []

/-- The non-zero part of the blob header: the UTF-8 bytes of
`"blob " + str(n)` (all non-zero). -/
def blobHeaderBody (n : Nat) : List Nat :=
  [98, 108, 111, 98, 32] ++ (natDigits n).map Char.toNat

/-- `f"blob {n}\0".encode("utf-8")`. -/
def blobHeader (n : Nat) : List Nat := blobHeaderBody n ++ [0]

/-- `_compute_git_blob_sha` (main.py lines 385–389). -/
def compute_git_blob_sha (content : List Nat) : List Char :=
  sha1Hex (blobHeader content.length ++ content)

/-! ## Managed sync paths and the GitHub-API backend (main.py) -/

/-- `SETTINGS_FILE_NAME` (main.py line 82). -/
def SETTINGS_FILE_NAME : List Char := ".notebook-settings.json".data

/-- `ALLOWED_IMAGE_EXTENSIONS` (main.py line 61). -/
def ALLOWED_IMAGE_EXTENSIONS : List (List Char) :=
  [".png".data, ".jpg".data, ".jpeg".data, ".gif".data, ".svg".data, ".webp".data]

/-- `pathlib.PurePath.suffix`: the final `"."`-led extension of a name, empty
when the only dot is leading or trailing. -/
def pathSuffix (name : List Char) : List Char :=
  match name.reverse.findIdx? (fun c => c == '.') with
  | none => []
  | some j =>
      let i := name.length - 1 - j
      if 0 < i ∧ i < name.length - 1 then name.drop i else []

/-- `_is_managed_notes_rel_path` (main.py lines 270–298): markdown notes,
allowed image formats, and the three configuration file names are managed;
anything under a hidden directory is not. -/
def is_managed_notes_rel_path (rel_path : List Char) : Bool :=
  let rel := lstripSlashes (pyStrip rel_path)
  if rel = [] then false
  else
    let parts := (splitSlash rel).filter (fun p => p ≠ [])
    if parts = [] then false
    else
      let name := parts.getLastD []
      if name == SETTINGS_FILE_NAME || name == ".gitignore".data ||
          name == ".gitkeep".data then true
      else
        let suffix := (pathSuffix name).map Char.toLower
        if suffix == ".md".data || ALLOWED_IMAGE_EXTENSIONS.contains suffix then
          if parts.dropLast.any (fun p => p.headD ' ' == '.') then false else true
        else false

/-- One entry of the GitHub `git/trees` listing. -/
structure TreeEntry where
  typ : List Char
  path : List Char
  sha : List Char

/-- Insert-or-replace into a path ↦ sha association list (Python dict
assignment `items[path] = sha`). -/
def upsertSha (m : List (List Char × List Char)) (k v : List Char) :
    List (List Char × List Char) :=
  match m with
  | [] => [(k, v)]
  | (k', v') :: rest =>
      if k' == k then (k', v) :: rest else (k', v') :: upsertSha rest k v

def lookupSha (m : List (List Char × List Char)) (k : List Char) :
    Option (List Char) :=
  match m.find? (fun p => p.1 == k) with
  | some p => some p.2
  | none => none

/-- One step of the `_fetch_github_tree_for_branch` loop (main.py lines
369–380): keep a blob entry with a non-empty stripped path that is managed
and a non-empty sha. -/
def fetchStep (acc : List (List Char × List Char)) (e : TreeEntry) :
    List (List Char × List Char) :=
  if e.typ == "blob".data then
    let path := pyStrip e.path
    if path ≠ [] ∧ is_managed_notes_rel_path path = true then
      let sha := pyStrip e.sha
      if sha ≠ [] then upsertSha acc path sha else acc
    else acc
  else acc

/-- `_fetch_github_tree_for_branch` (main.py lines 348–382). -/
def fetch_github_tree (entries : List TreeEntry) :
    List (List Char × List Char) :=
  entries.foldl fetchStep []

/-- `_iter_local_notes_sync_paths` (main.py lines 301–319): the local files
(root-relative path ↦ byte content) restricted to managed paths. -/
def iter_local_notes_sync_paths (files : List (List Char × List Nat)) :
    List (List Char × List Nat) :=
  files.filter (fun f => is_managed_notes_rel_path f.1)

/-- The `local_index` of `auto_commit_and_push_notes` (main.py lines
405–414): managed path ↦ (content, blob sha). -/
def localNotesIndex (files : List (List Char × List Nat)) :
    List (List Char × List Nat × List Char) :=
  (iter_local_notes_sync_paths files).map
    (fun f => (f.1, f.2, compute_git_blob_sha f.2))

/-- A mutation `auto_commit_and_push_notes` performs against the remote
repository through the Contents API. -/
inductive RemoteAction where
  | create (rel : List Char)
  | update (rel : List Char)
  | delete (rel : List Char)
deriving DecidableEq

def remoteActionPath : RemoteAction → List Char
  | .create rel => rel
  | .update rel => rel
  | .delete rel => rel

/-- The remote mutations issued by `auto_commit_and_push_notes` (main.py
lines 392–441, the `to_create`/`to_update`/`to_delete` computation), given
the raw remote tree listing and the full local file set.  (Unreadable local
files, which the source skips, are not modelled: they only shrink the
action set.) -/
def auto_commit_and_push_notes (entries : List TreeEntry)
    (files : List (List Char × List Nat)) : List RemoteAction :=
  let remote_files := fetch_github_tree entries
  let local_index := localNotesIndex files
  let to_create :=
    (local_index.filter (fun f => (lookupSha remote_files f.1).isNone)).map
      (fun f => RemoteAction.create f.1)
  let to_update :=
    (local_index.filter (fun f =>
      match lookupSha remote_files f.1 with
      | some s => s != f.2.2
      | none => false)).map (fun f => RemoteAction.update f.1)
  let to_delete :=
    (remote_files.filter (fun r =>
      (local_index.find? (fun f => f.1 == r.1)).isNone)).map
      (fun r => RemoteAction.delete r.1)
  to_create ++ to_update ++ to_delete

/-- A mutation `auto_pull_notes` performs against the local tree. -/
inductive LocalAction where
  | write (rel : List Char)
  | unlink (rel : List Char)
deriving DecidableEq

def localActionPath : LocalAction → List Char
  | .write rel => rel
  | .unlink rel => rel

/-- The local-tree mutations issued by `auto_pull_notes` (main.py lines
544–610): download each managed remote file whose blob sha differs from the
local copy (`fetched` gives the decoded content body, `none` modelling an
empty/undecodable payload which the source skips), and unlink each managed
local file absent from the remote listing.  The function also invokes
`auto_commit_and_push_notes` first; its remote effects are covered by
`auto_commit_and_push_notes` above. -/
def auto_pull_notes (entries : List TreeEntry)
    (files : List (List Char × List Nat))
    (fetched : List Char → Option (List Nat)) : List LocalAction :=
  let remote_files := fetch_github_tree entries
  let writes :=
    (remote_files.filter (fun r =>
      let cur :=
        match files.find? (fun f => f.1 == r.1) with
        | some f => some (compute_git_blob_sha f.2)
        | none => none
      cur != some r.2 && (fetched r.1).isSome)).map
      (fun r => LocalAction.write r.1)
  let deletes :=
    ((iter_local_notes_sync_paths files).filter (fun f =>
      (remote_files.find? (fun r => r.1 == f.1)).isNone)).map
      (fun f => LocalAction.unlink f.1)
  writes ++ deletes

/-! ## Auto-sync scheduler

Modelled from the spec: the auto-sync scheduler (spec §4.6) — its source is
not part of this repository snapshot (`src/` holds only the git and
GitHub-API backends), so the tick logic below follows the specification's
words: per-operation enable flags and intervals, commit → pull → push order,
conflict bookkeeping after pull, and push gating on the shared state. -/

structure SchedSettings where
  commitEnabled : Bool
  pullEnabled : Bool
  pushEnabled : Bool
  commitInterval : Nat
  pullInterval : Nat
  pushInterval : Nat

structure OpRecord where
  lastRun : Nat
  lastStatus : List Char

structure ConflictRecord where
  active : Bool
  conflictBranch : Option (List Char)
  lastError : Option (List Char)

structure SchedState where
  commitRec : OpRecord
  pullRec : OpRecord
  pushRec : OpRecord
  conflict : ConflictRecord

/-- Outcomes of the operations if invoked during this tick. -/
structure TickFx where
  commitStatus : List Char
  pullStatus : List Char
  pullConflictBranch : Option (List Char)
  pullError : Option (List Char)
  pushStatus : List Char

inductive SchedEvent where
  | commitInvoked
  | pullInvoked
  | pushInvoked
  | pushSkipped (reason : List Char)
deriving DecidableEq

/-- Modelled from the spec: "the last pull status was not `ok`/`skipped`". -/
def okOrSkipped (s : List Char) : Bool := s == "ok".data || s == "skipped".data

/-- Modelled from the spec: an operation is due when enabled and its
interval has elapsed since its last run. -/
def opDue (enabled : Bool) (interval lastRun now : Nat) : Bool :=
  enabled && decide (lastRun + interval ≤ now)

/-- Modelled from the spec: the commit leg of one tick. -/
def commitStep (s : SchedSettings) (now : Nat) (fx : TickFx) (st : SchedState) :
    SchedState × List SchedEvent :=
  if opDue s.commitEnabled s.commitInterval st.commitRec.lastRun now then
    (⟨⟨now, fx.commitStatus⟩, st.pullRec, st.pushRec, st.conflict⟩,
      [SchedEvent.commitInvoked])
  else (st, [])

/-- Modelled from the spec: the pull leg of one tick, with conflict
bookkeeping (mark active on `conflict`, clear on `ok`/`skipped`). -/
def pullStep (s : SchedSettings) (now : Nat) (fx : TickFx) (st : SchedState) :
    SchedState × List SchedEvent :=
  if opDue s.pullEnabled s.pullInterval st.pullRec.lastRun now then
    let newConflict : ConflictRecord :=
      if fx.pullStatus == "conflict".data then
        ⟨true, fx.pullConflictBranch, fx.pullError⟩
      else if okOrSkipped fx.pullStatus then ⟨false, none, none⟩
      else st.conflict
    (⟨st.commitRec, ⟨now, fx.pullStatus⟩, st.pushRec, newConflict⟩,
      [SchedEvent.pullInvoked])
  else (st, [])

/-- Modelled from the spec: the push gate — the reason to skip, if any. -/
def pushGateReason (st : SchedState) : Option (List Char) :=
  if st.conflict.active then some "conflict active".data
  else if !okOrSkipped st.pullRec.lastStatus then some "last pull not clean".data
  else if !okOrSkipped st.commitRec.lastStatus then
    some "last commit not clean".data
  else none

/-- Modelled from the spec: the push leg of one tick — when due, either skip
with a `{pushed: false, reason}` record (no transport call) or invoke the
push. -/
def pushStep (s : SchedSettings) (now : Nat) (fx : TickFx) (st : SchedState) :
    SchedState × List SchedEvent :=
  if opDue s.pushEnabled s.pushInterval st.pushRec.lastRun now then
    match pushGateReason st with
    | some r =>
        (⟨st.commitRec, st.pullRec, ⟨now, "skipped-gated".data⟩, st.conflict⟩,
          [SchedEvent.pushSkipped r])
    | none =>
        (⟨st.commitRec, st.pullRec, ⟨now, fx.pushStatus⟩, st.conflict⟩,
          [SchedEvent.pushInvoked])
  else (st, [])

/-- Modelled from the spec: one scheduler tick, evaluating commit, pull and
push in that fixed order against the shared state. -/
def schedulerTick (s : SchedSettings) (now : Nat) (fx : TickFx)
    (st : SchedState) : SchedState × List SchedEvent :=
  let c := commitStep s now fx st
  let p := pullStep s now fx c.1
  let q := pushStep s now fx p.1
  (q.1, c.2 ++ p.2 ++ q.2)

end NotesSync

namespace NotesSync

/-! ## Theorems -/

section SanityChecks

example : pyStrip " ab ".data = "ab".data := by decide

example : splitSlash "a//b".data = ["a".data, [], "b".data] := by decide

example : natDigits 2026 = "2026".data := by decide

example :
    conflictBranchName ⟨2026, 1, 2, 3, 4, 5⟩ "my-host.local".data =
      "conflict-20260102-030405-my-host".data := by decide

example : safeHost "!!".data = "host".data := by decide

example : pyIsAlnum 'é' = true := by decide

end SanityChecks

/-! ### C3: conflict branch naming -/

theorem digitChar_refSafe (d : Nat) : refSafeChar (digitChar d) = true := by
  unfold digitChar
  split <;> decide

theorem natDigitsAux_forall (P : Char → Prop) (hP : ∀ d, P (digitChar d)) :
    ∀ fuel n acc, (∀ c ∈ acc, P c) → ∀ c ∈ natDigitsAux fuel n acc, P c := by
  intro fuel
  induction fuel with
  | zero =>
      intro n acc hacc c hc
      simpa [natDigitsAux] using hacc c (by simpa [natDigitsAux] using hc)
  | succ f ih =>
      intro n acc hacc c hc
      unfold natDigitsAux at hc
      by_cases hn : n < 10
      · simp only [if_pos hn, List.mem_cons] at hc
        rcases hc with rfl | hc
        · exact hP n
        · exact hacc c hc
      · simp only [if_neg hn] at hc
        refine ih (n / 10) (digitChar (n % 10) :: acc) ?_ c hc
        intro c hc
        rcases List.mem_cons.mp hc with rfl | hc
        · exact hP (n % 10)
        · exact hacc c hc

theorem natDigits_refSafe (n : Nat) : ∀ c ∈ natDigits n, refSafeChar c = true :=
  natDigitsAux_forall (fun c => refSafeChar c = true) digitChar_refSafe _ n []
    (by intro c hc; simp at hc)

theorem padNum_refSafe (w n : Nat) : ∀ c ∈ padNum w n, refSafeChar c = true := by
  intro c hc
  rcases List.mem_append.mp hc with hc | hc
  · have := List.eq_of_mem_replicate hc
    subst this; decide
  · exact natDigits_refSafe n c hc

theorem formatTimestamp_refSafe (ts : Timestamp) :
    ∀ c ∈ formatTimestamp ts, refSafeChar c = true := by
  intro c hc
  unfold formatTimestamp at hc
  simp only [List.mem_append, List.mem_singleton] at hc
  rcases hc with (((((hc | hc) | hc) | rfl) | hc) | hc) | hc
  · exact padNum_refSafe 4 ts.year c hc
  · exact padNum_refSafe 2 ts.month c hc
  · exact padNum_refSafe 2 ts.day c hc
  · decide
  · exact padNum_refSafe 2 ts.hour c hc
  · exact padNum_refSafe 2 ts.minute c hc
  · exact padNum_refSafe 2 ts.second c hc

theorem ascii_kept_refSafe (c : Char) (h128 : c.toNat < 128)
    (hkeep : (pyIsAlnum c || c == '-' || c == '_') = true) :
    refSafeChar c = true := by
  simp only [Bool.or_eq_true, beq_iff_eq] at hkeep
  rcases hkeep with (halnum | rfl) | rfl
  · have := of_decide_eq_true (by simpa [pyIsAlnum] using halnum)
    simp only [refSafeChar, decide_eq_true_eq]
    omega
  · decide
  · decide

theorem safeHost_refSafe (label : List Char) (hascii : ∀ c ∈ label, c.toNat < 128) :
    ∀ c ∈ safeHost label, refSafeChar c = true := by
  intro c hc
  unfold safeHost at hc
  dsimp only at hc
  split at hc
  · have hall : ∀ x ∈ "host".data, refSafeChar x = true := by decide
    exact hall c hc
  · have hmem := List.mem_filter.mp hc
    exact ascii_kept_refSafe c (hascii c hmem.1) hmem.2

/-- C3, counterexample.  The claim asserts that for any hostname — including
ones with non-alphanumeric characters — the synthesized branch name contains
only characters in `[A-Za-z0-9_-]`.  But Python's `str.isalnum` is true for
every Unicode alphanumeric character, e.g. `'é'` (U+00E9), so a hostname
`"é"` survives sanitization and the branch name contains `'é'`, which is not
in `[A-Za-z0-9_-]`. -/
theorem claim_C3_counterexample :
    ¬ (∀ c ∈ conflictBranchName ⟨2026, 1, 2, 3, 4, 5⟩ "é".data,
        refSafeChar c = true) := by
  decide

/-- C3, amended: for every hostname the branch name equals
`"conflict-" + YYYYMMDD-HHmmss + "-" + sanitizedHost` with `sanitizedHost`
keeping only (Unicode) alphanumerics, `-`, `_` from the first dot-separated
label and falling back to `"host"`; and whenever the hostname consists of
ASCII characters only, the branch name contains only `[A-Za-z0-9_-]`. -/
theorem claim_C3 (ts : Timestamp) (hostname : List Char) :
    conflictBranchName ts hostname = claimBranchName ts hostname ∧
    ((∀ c ∈ hostname, c.toNat < 128) →
      ∀ c ∈ conflictBranchName ts hostname, refSafeChar c = true) := by
  constructor
  · unfold conflictBranchName claimBranchName safeHost firstHostLabel
      CONFLICT_BRANCH_PREFIX
    have h1 : "conflict".data ++ ['-'] = "conflict-".data := by decide
    have h2 : ['-'] = "-".data := by decide
    rw [← h1, ← h2]
  · intro hascii c hc
    unfold conflictBranchName at hc
    simp only [List.mem_append, List.mem_singleton] at hc
    rcases hc with (((hc | rfl) | hc) | rfl) | hc
    · revert hc
      have : ∀ c ∈ CONFLICT_BRANCH_PREFIX, refSafeChar c = true := by decide
      exact this c
    · decide
    · exact formatTimestamp_refSafe ts c hc
    · decide
    · refine safeHost_refSafe (firstHostLabel hostname) ?_ c hc
      intro d hd
      exact hascii d ((List.takeWhile_sublist _).subset hd)

/-! ### Ref-map lemmas -/

theorem lookupRef_setRef_self (refs : List (List Char × Nat)) (name : List Char)
    (v : Nat) : lookupRef (setRef refs name v) name = some v := by
  induction refs with
  | nil => simp [setRef, lookupRef, List.find?]
  | cons p rest ih =>
      obtain ⟨n, x⟩ := p
      by_cases h : (n == name) = true
      · simp [setRef, lookupRef, List.find?, h]
      · simp only [setRef, if_neg h]
        simpa [lookupRef, List.find?, h] using ih

theorem lookupRef_setRef_ne (refs : List (List Char × Nat))
    (name name' : List Char) (v : Nat) (h : name' ≠ name) :
    lookupRef (setRef refs name v) name' = lookupRef refs name' := by
  induction refs with
  | nil =>
      simp only [setRef, lookupRef, List.find?]
      have : (name == name') = false := by
        simp [beq_eq_false_iff_ne]
        exact fun e => h e.symm
      simp [this]
  | cons p rest ih =>
      obtain ⟨n, x⟩ := p
      by_cases hn : (n == name) = true
      · have hne : (n == name') = false := by
          have : n = name := by simpa using hn
          subst this
          simp [beq_eq_false_iff_ne]
          exact fun e => h e.symm
        simp [setRef, lookupRef, List.find?, hn, hne]
      · simp only [setRef, if_neg hn]
        by_cases hn' : (n == name') = true
        · simp [lookupRef, List.find?, hn']
        · simpa [lookupRef, List.find?, hn'] using ih

/-! ### C4: commit is a no-op on a clean tree -/

/-- C4, confirmed: if the staged diff is empty after staging (the porcelain
status output strips to nothing), `_commit_notes` returns `committed=false`
with summary exactly `"No changes to commit"` and leaves the working tree —
in particular its head — unchanged (a non-error: the function returns
normally).  Moreover after any invocation that did commit, a second
invocation with no intervening file changes returns `committed=false` with
that same summary and does not move the head. -/
theorem claim_C4 (fx fx2 : CommitFx) (wt : WorkTree) :
    (pyStrip wt.statusOut = [] →
      commit_notes fx wt = (wt, ⟨false, none, none, some "No changes to commit".data⟩)) ∧
    ((commit_notes fx wt).2.committed = true →
      (commit_notes fx2 (commit_notes fx wt).1).2.committed = false ∧
      (commit_notes fx2 (commit_notes fx wt).1).2.summary =
          some "No changes to commit".data ∧
      (commit_notes fx2 (commit_notes fx wt).1).1 = (commit_notes fx wt).1) := by
  constructor
  · intro hclean
    simp [commit_notes, hclean]
  · intro hcommitted
    by_cases hdirty : (fx.statusOk && !(pyStrip wt.statusOut).isEmpty) = false
    · exfalso
      simp [commit_notes, hdirty] at hcommitted
    · by_cases hok : fx.commitOk = false
      · exfalso
        simp [commit_notes, hdirty, hok] at hcommitted
      · have h1 : commit_notes fx wt =
            (⟨[], some fx.newCommitId⟩,
              ⟨true, if fx.revParseOk then some fx.newCommitId else none,
                some (fx.message.getD fx.defaultMessage), none⟩) := by
          simp [commit_notes, hdirty, hok]
        rw [h1]
        simp [commit_notes, pyStrip]

/-- Witness for `claim_C4` on a clean tree and on a tree that commits. -/
theorem claim_C4_witness :
    (commit_notes ⟨[], true, true, [], true, none, "m".data, 7⟩ ⟨[], some 5⟩ =
      (⟨[], some 5⟩, ⟨false, none, none, some "No changes to commit".data⟩)) ∧
    ((commit_notes ⟨[], true, true, [], true, none, "m".data, 7⟩
        (commit_notes ⟨[], true, true, [], true, none, "m".data, 7⟩
          ⟨"M a.md".data, some 5⟩).1).2.committed = false) :=
  ⟨(claim_C4 ⟨[], true, true, [], true, none, "m".data, 7⟩
      ⟨[], true, true, [], true, none, "m".data, 7⟩ ⟨[], some 5⟩).1 (by decide),
    ((claim_C4 ⟨[], true, true, [], true, none, "m".data, 7⟩
      ⟨[], true, true, [], true, none, "m".data, 7⟩ ⟨"M a.md".data, some 5⟩).2
        (by decide)).1⟩

/-! ### C5: no remote configured -/

/-- C5, counterexample.  With no `origin` remote, `_push_notes` skips with
detail `"No 'origin' remote configured."`, not the claimed
`"No remote configured."`. -/
theorem claim_C5_counterexample :
    (push_notes ⟨[], false, none, none, false, []⟩).1.2.detail =
        some "No 'origin' remote configured.".data ∧
      (push_notes ⟨[], false, none, none, false, []⟩).1.2.detail ≠
        some "No remote configured.".data := by
  constructor <;> decide

/-- C5, amended: with no `origin` remote configured, push returns
`pushed=false`, status `"skipped"`, detail `"No 'origin' remote
configured."` (not `"No remote configured."`), and pull returns status
`"skipped"`; neither issues a push, fetch or pull git command (their traces
contain no such command), the repository state is untouched, and both
functions return normally. -/
theorem claim_C5 (pfx : PushFx) (fx : PullFx) (st : RepoState)
    (hp : pfx.remoteOk = false) (hl : fx.remoteOk = false) :
    (push_notes pfx).1.1 = false ∧
    (push_notes pfx).1.2.status = "skipped".data ∧
    (push_notes pfx).1.2.detail = some "No 'origin' remote configured.".data ∧
    GitCmd.pushCmd ∉ (push_notes pfx).2 ∧
    (pull_notes_with_rebase fx st).1.2 =
        PullResult.skipped "No 'origin' remote configured.".data ∧
    GitCmd.pullRebase ∉ (pull_notes_with_rebase fx st).2 ∧
    GitCmd.fetch ∉ (pull_notes_with_rebase fx st).2 ∧
    (pull_notes_with_rebase fx st).1.1 = st := by
  refine ⟨?_, ?_, ?_, ?_, ?_, ?_, ?_, ?_⟩ <;>
    simp [push_notes, pull_notes_with_rebase, hp, hl]

/-- Witness for `claim_C5` at a concrete remote-less configuration. -/
theorem claim_C5_witness :
    (push_notes ⟨[], false, none, none, false, []⟩).1.1 = false ∧
    (push_notes ⟨[], false, none, none, false, []⟩).1.2.status = "skipped".data ∧
    (push_notes ⟨[], false, none, none, false, []⟩).1.2.detail =
        some "No 'origin' remote configured.".data ∧
    GitCmd.pushCmd ∉ (push_notes ⟨[], false, none, none, false, []⟩).2 ∧
    (pull_notes_with_rebase
        ⟨[], false, none, none, false, [], none, none, false, false, false, false,
          [], ⟨2026, 1, 2, 3, 4, 5⟩, []⟩ ⟨[], none, [], false⟩).1.2 =
        PullResult.skipped "No 'origin' remote configured.".data ∧
    GitCmd.pullRebase ∉ (pull_notes_with_rebase
        ⟨[], false, none, none, false, [], none, none, false, false, false, false,
          [], ⟨2026, 1, 2, 3, 4, 5⟩, []⟩ ⟨[], none, [], false⟩).2 ∧
    GitCmd.fetch ∉ (pull_notes_with_rebase
        ⟨[], false, none, none, false, [], none, none, false, false, false, false,
          [], ⟨2026, 1, 2, 3, 4, 5⟩, []⟩ ⟨[], none, [], false⟩).2 ∧
    (pull_notes_with_rebase
        ⟨[], false, none, none, false, [], none, none, false, false, false, false,
          [], ⟨2026, 1, 2, 3, 4, 5⟩, []⟩ ⟨[], none, [], false⟩).1.1 =
        ⟨[], none, [], false⟩ :=
  claim_C5 ⟨[], false, none, none, false, []⟩
    ⟨[], false, none, none, false, [], none, none, false, false, false, false,
      [], ⟨2026, 1, 2, 3, 4, 5⟩, []⟩ ⟨[], none, [], false⟩ rfl rfl

/-! ### C6: push outcome reporting -/

/-- C6, confirmed: with a remote and a resolvable branch, a failing push
yields `(pushed=false, status="error", detail=<sanitized error>)` and a
succeeding push yields `(pushed=true, status="ok", remote="origin",
branch=<current branch>)`; `_push_notes` is a total function of the command
outcomes, so no exception crosses the sync-core boundary. -/
theorem claim_C6 (fx : PushFx) (b : List Char)
    (hr : fx.remoteOk = true) (hb : fx.branch = some b) :
    (fx.pushOk = false →
      (push_notes fx).1 =
        (false, ⟨"error".data, some (sanitize_git_error fx.token fx.pushErr),
          none, none⟩)) ∧
    (fx.pushOk = true →
      (push_notes fx).1 =
        (true, ⟨"ok".data, none, some "origin".data, some b⟩)) := by
  constructor
  · intro hpush
    simp [push_notes, hr, hb, hpush]
  · intro hpush
    simp [push_notes, hr, hb, hpush]

/-- Witness for `claim_C6`: a failing and a succeeding push. -/
theorem claim_C6_witness :
    ((push_notes ⟨"tok".data, true, some "main".data, none, false, "denied".data⟩).1 =
      (false, ⟨"error".data,
        some (sanitize_git_error "tok".data "denied".data), none, none⟩)) ∧
    ((push_notes ⟨"tok".data, true, some "main".data, none, true, []⟩).1 =
      (true, ⟨"ok".data, none, some "origin".data, some "main".data⟩)) :=
  ⟨(claim_C6 ⟨"tok".data, true, some "main".data, none, false, "denied".data⟩
      "main".data rfl rfl).1 rfl,
    (claim_C6 ⟨"tok".data, true, some "main".data, none, true, []⟩
      "main".data rfl rfl).2 rfl⟩

/-! ### C2: shape of the conflict result -/

/-- C2, confirmed: whenever the pull/rebase step fails, the function returns
(it is total — nothing is raised) a `conflict` result whose `conflictBranch`
is the synthesized name exactly when a branch pointing at `localBefore` was
successfully created and `none` otherwise; whose `resetStatus` is
`"reset-to-remote"` when a `remoteBefore` was captured and the forced reset
succeeded, `"reset-failed"` when it was captured and the reset failed, and
absent when no `remoteBefore` was captured; and whose `error` carries the
sanitized error text. -/
theorem claim_C2 (fx : PullFx) (st : RepoState) (branch : List Char)
    (hr : fx.remoteOk = true) (hb : fx.branch = some branch)
    (hpull : fx.pullOk = false) :
    (pull_notes_with_rebase fx st).1.2 =
      PullResult.conflict branch (lookupRef st.refs branch) st.remoteTip
        (if (lookupRef st.refs branch).isSome && fx.createOk then
          some (conflictBranchName fx.ts fx.hostname) else none)
        (st.remoteTip.map (fun _ =>
          if fx.resetOk then "reset-to-remote".data else "reset-failed".data))
        (sanitize_git_error fx.token
          (if fx.pullErr = [] then "git pull --rebase failed".data else fx.pullErr)) := by
  have hred : (pull_notes_with_rebase fx st).1 =
      (pullRecovery fx branch (lookupRef st.refs branch) st.remoteTip
        ⟨st.refs, fetchTipAfter fx st, st.parents, fx.pullLeavesRebase⟩).1 := by
    simp [pull_notes_with_rebase, hr, hb, hpull]
  rw [hred]
  unfold pullRecovery
  rcases hl : lookupRef st.refs branch with _ | l <;>
    rcases hrt : st.remoteTip with _ | r <;>
      rcases hft : fx.fetchedTip with _ | u <;>
        rcases hcr : fx.createOk with _ | _ <;>
          rcases hrs : fx.resetOk with _ | _ <;>
            simp [fetchTipAfter, hl, hrt, hft, hcr, hrs]

/-- Witness for `claim_C2` at a concrete failing pull. -/
theorem claim_C2_witness :
    (pull_notes_with_rebase
        ⟨"tok".data, true, some "main".data, none, false, "boom".data, none, none,
          true, true, true, true, [], ⟨2026, 1, 2, 3, 4, 5⟩, "host1".data⟩
        ⟨[("main".data, 2)], some 1, [], false⟩).1.2 =
      PullResult.conflict "main".data
        (lookupRef [("main".data, 2)] "main".data) (some 1)
        (if (lookupRef [("main".data, 2)] "main".data).isSome && true then
          some (conflictBranchName ⟨2026, 1, 2, 3, 4, 5⟩ "host1".data) else none)
        ((some 1).map (fun _ =>
          if true then "reset-to-remote".data else "reset-failed".data))
        (sanitize_git_error "tok".data
          (if ("boom".data : List Char) = [] then "git pull --rebase failed".data
            else "boom".data)) :=
  claim_C2
    ⟨"tok".data, true, some "main".data, none, false, "boom".data, none, none,
      true, true, true, true, [], ⟨2026, 1, 2, 3, 4, 5⟩, "host1".data⟩
    ⟨[("main".data, 2)], some 1, [], false⟩ "main".data rfl rfl rfl

/-! ### C1: recovery invariant after a failed pull -/

/-- C1, counterexample.  Pre-pull state: active branch `main` at commit 2
(whose sole parent is 0), remote-tracking tip at commit 1; the pull fails,
creation of the conflict branch fails (`createOk = false`), the forced reset
succeeds.  Afterwards `main` points at commit 1, no conflict branch exists,
and commit 2 — reachable from the pre-pull HEAD — is reachable neither from
the conflict branch (never created) nor from the active branch (which was
changed, not "left exactly as it was").  This refutes the claim's guarantee
that every commit reachable from `localBefore` stays reachable from the
created conflict branch or the unchanged active branch. -/
theorem claim_C1_counterexample :
    conflictBranchOf ((pull_notes_with_rebase
        ⟨[], true, some "main".data, none, false, "boom".data, none, none,
          true, true, false, true, [], ⟨2026, 1, 2, 3, 4, 5⟩, "host1".data⟩
        ⟨[("main".data, 2)], some 1, [(2, [0]), (1, [0]), (0, [])], false⟩).1.2) =
        none ∧
    2 ∈ reachable [(2, [0]), (1, [0]), (0, [])] 10 2 ∧
    lookupRef [("main".data, 2)] "main".data = some 2 ∧
    lookupRef ((pull_notes_with_rebase
        ⟨[], true, some "main".data, none, false, "boom".data, none, none,
          true, true, false, true, [], ⟨2026, 1, 2, 3, 4, 5⟩, "host1".data⟩
        ⟨[("main".data, 2)], some 1, [(2, [0]), (1, [0]), (0, [])], false⟩).1.1).refs
        "main".data = some 1 ∧
    2 ∉ reachableFromRef ((pull_notes_with_rebase
        ⟨[], true, some "main".data, none, false, "boom".data, none, none,
          true, true, false, true, [], ⟨2026, 1, 2, 3, 4, 5⟩, "host1".data⟩
        ⟨[("main".data, 2)], some 1, [(2, [0]), (1, [0]), (0, [])], false⟩).1.1)
        "main".data 10 ∧
    2 ∉ reachableFromRef ((pull_notes_with_rebase
        ⟨[], true, some "main".data, none, false, "boom".data, none, none,
          true, true, false, true, [], ⟨2026, 1, 2, 3, 4, 5⟩, "host1".data⟩
        ⟨[("main".data, 2)], some 1, [(2, [0]), (1, [0]), (0, [])], false⟩).1.1)
        (conflictBranchName ⟨2026, 1, 2, 3, 4, 5⟩ "host1".data) 10 := by
  refine ⟨?_, ?_, ?_, ?_, ?_, ?_⟩ <;> decide

/-- C1, amended: after a failed pull the recovery code (a) leaves no rebase
in progress whenever the best-effort abort succeeds; (b) leaves the active
branch either exactly as it was before the attempt or force-reset to the
(post-fetch) remote-tracking tip, the reset case occurring exactly when a
remote tip was captured and the forced reset succeeded — regardless of
whether the conflict branch could be created; and (c) when the conflict
branch was successfully created, it points at the pre-pull HEAD, so every
commit reachable from `localBefore` remains reachable from the conflict
branch.  (When the conflict branch could not be created and the reset
succeeded, commits reachable only from `localBefore` may become unreachable —
see the counterexample.) -/
theorem claim_C1 (fx : PullFx) (st : RepoState) (branch : List Char)
    (hr : fx.remoteOk = true) (hb : fx.branch = some branch)
    (hpull : fx.pullOk = false)
    (hname : branch ≠ conflictBranchName fx.ts fx.hostname) :
    (fx.abortOk = true →
      ((pull_notes_with_rebase fx st).1.1).rebaseInProgress = false) ∧
    (lookupRef ((pull_notes_with_rebase fx st).1.1).refs branch =
        lookupRef st.refs branch ∨
      (st.remoteTip.isSome = true ∧ fx.resetOk = true ∧
        lookupRef ((pull_notes_with_rebase fx st).1.1).refs branch =
          fetchTipAfter fx st)) ∧
    (¬(st.remoteTip.isSome = true ∧ fx.resetOk = true) →
      lookupRef ((pull_notes_with_rebase fx st).1.1).refs branch =
        lookupRef st.refs branch) ∧
    (∀ l, lookupRef st.refs branch = some l → fx.createOk = true →
      conflictBranchOf ((pull_notes_with_rebase fx st).1.2) =
          some (conflictBranchName fx.ts fx.hostname) ∧
      ∀ fuel c, c ∈ reachable st.parents fuel l →
        c ∈ reachableFromRef ((pull_notes_with_rebase fx st).1.1)
          (conflictBranchName fx.ts fx.hostname) fuel) := by
  have hred : (pull_notes_with_rebase fx st).1 =
      (pullRecovery fx branch (lookupRef st.refs branch) st.remoteTip
        ⟨st.refs, fetchTipAfter fx st, st.parents, fx.pullLeavesRebase⟩).1 := by
    simp [pull_notes_with_rebase, hr, hb, hpull]
  have hnm : conflictBranchName fx.ts fx.hostname ≠ branch := fun e => hname e.symm
  refine ⟨?_, ?_, ?_, ?_⟩
  · intro ha
    rw [hred]
    unfold pullRecovery
    rcases hl : lookupRef st.refs branch with _ | l <;>
      rcases hrt : st.remoteTip with _ | r <;> simp [hl, hrt, ha]
  · rw [hred]
    unfold pullRecovery
    rcases hrt : st.remoteTip with _ | r
    · left
      rcases hl : lookupRef st.refs branch with _ | l <;>
        rcases hcr : fx.createOk with _ | _ <;>
          simp [hl, hrt, hcr, lookupRef_setRef_ne _ _ _ _ hname]
    · rcases hrs : fx.resetOk with _ | _
      · left
        rcases hl : lookupRef st.refs branch with _ | l <;>
          rcases hcr : fx.createOk with _ | _ <;>
            rcases hft : fx.fetchedTip with _ | u <;>
              simp [fetchTipAfter, hl, hrt, hft, hcr, hrs,
                lookupRef_setRef_ne _ _ _ _ hname]
      · right
        refine ⟨rfl, rfl, ?_⟩
        rcases hl : lookupRef st.refs branch with _ | l <;>
          rcases hcr : fx.createOk with _ | _ <;>
            rcases hft : fx.fetchedTip with _ | u <;>
              simp [fetchTipAfter, hl, hrt, hft, hcr, hrs, lookupRef_setRef_self]
  · intro hnot
    rw [hred]
    unfold pullRecovery
    rcases hrt : st.remoteTip with _ | r
    · rcases hl : lookupRef st.refs branch with _ | l <;>
        rcases hcr : fx.createOk with _ | _ <;>
          simp [hl, hcr, lookupRef_setRef_ne _ _ _ _ hname]
    · have hrs : fx.resetOk = false := by
        rcases hq : fx.resetOk with _ | _
        · rfl
        · exact absurd ⟨by simp [hrt], hq⟩ hnot
      rcases hl : lookupRef st.refs branch with _ | l <;>
        rcases hcr : fx.createOk with _ | _ <;>
          rcases hft : fx.fetchedTip with _ | u <;>
            simp [fetchTipAfter, hl, hrt, hft, hcr, hrs,
              lookupRef_setRef_ne _ _ _ _ hname]
  · intro l hl hcr
    have hlook : lookupRef ((pull_notes_with_rebase fx st).1.1).refs
        (conflictBranchName fx.ts fx.hostname) = some l := by
      rw [hred]
      unfold pullRecovery
      rcases hrt : st.remoteTip with _ | r <;>
        rcases hrs : fx.resetOk with _ | _ <;>
          rcases hft : fx.fetchedTip with _ | u <;>
            simp [fetchTipAfter, hl, hrt, hft, hcr, hrs,
              lookupRef_setRef_self, lookupRef_setRef_ne _ _ _ _ hnm]
    have hpar : ((pull_notes_with_rebase fx st).1.1).parents = st.parents := by
      rw [hred]
      unfold pullRecovery
      rcases hrt : st.remoteTip with _ | r <;>
        rcases hrs : fx.resetOk with _ | _ <;> simp [hrt, hrs]
    constructor
    · rw [hred]
      unfold pullRecovery
      rcases hrt : st.remoteTip with _ | r <;> simp [hl, hrt, hcr, conflictBranchOf]
    · intro fuel c hc
      unfold reachableFromRef
      rw [hlook, hpar]
      exact hc

/-- Witness for `claim_C1` at a concrete failing pull whose conflict branch
is created. -/
theorem claim_C1_witness :
    ((pull_notes_with_rebase
        ⟨[], true, some "main".data, none, false, "boom".data, none, none,
          true, true, true, true, [], ⟨2026, 1, 2, 3, 4, 5⟩, "host1".data⟩
        ⟨[("main".data, 2)], some 1, [(2, [0]), (1, [0]), (0, [])], false⟩).1.1).rebaseInProgress
        = false ∧
    conflictBranchOf ((pull_notes_with_rebase
        ⟨[], true, some "main".data, none, false, "boom".data, none, none,
          true, true, true, true, [], ⟨2026, 1, 2, 3, 4, 5⟩, "host1".data⟩
        ⟨[("main".data, 2)], some 1, [(2, [0]), (1, [0]), (0, [])], false⟩).1.2) =
        some (conflictBranchName ⟨2026, 1, 2, 3, 4, 5⟩ "host1".data) ∧
    2 ∈ reachableFromRef ((pull_notes_with_rebase
        ⟨[], true, some "main".data, none, false, "boom".data, none, none,
          true, true, true, true, [], ⟨2026, 1, 2, 3, 4, 5⟩, "host1".data⟩
        ⟨[("main".data, 2)], some 1, [(2, [0]), (1, [0]), (0, [])], false⟩).1.1)
        (conflictBranchName ⟨2026, 1, 2, 3, 4, 5⟩ "host1".data) 10 := by
  have h := claim_C1
    ⟨[], true, some "main".data, none, false, "boom".data, none, none,
      true, true, true, true, [], ⟨2026, 1, 2, 3, 4, 5⟩, "host1".data⟩
    ⟨[("main".data, 2)], some 1, [(2, [0]), (1, [0]), (0, [])], false⟩
    "main".data rfl rfl rfl (by decide)
  exact ⟨h.1 rfl, (h.2.2.2 2 (by decide) rfl).1,
    (h.2.2.2 2 (by decide) rfl).2 10 2 (by decide)⟩

/-! ### C7: token redaction -/

theorem hasSub_nil_of_ne (tok : List Char) (h : tok ≠ []) : hasSub tok [] = false := by
  cases tok with
  | nil => exact absurd rfl h
  | cons a as => rfl

/-- A block of `'*'` characters prepended to a text contributes no occurrence
of a star-free token. -/
theorem hasSub_stars_append (tok : List Char) (htok : tok ≠ []) (hstar : '*' ∉ tok) :
    ∀ pre R, (∀ c ∈ pre, c = '*') → hasSub tok (pre ++ R) = hasSub tok R := by
  obtain ⟨t0, trest, rfl⟩ : ∃ t0 trest, tok = t0 :: trest := by
    cases tok with
    | nil => exact absurd rfl htok
    | cons a as => exact ⟨a, as, rfl⟩
  have ht0 : (t0 == '*') = false := by
    refine beq_eq_false_iff_ne.mpr ?_
    intro h
    exact hstar (by simp [h])
  intro pre
  induction pre with
  | nil => intro R _; rfl
  | cons p ps ih =>
      intro R hpre
      have hp : p = '*' := hpre p (List.mem_cons_self _ _)
      subst hp
      show (isPre (t0 :: trest) ('*' :: (ps ++ R)) ||
          hasSub (t0 :: trest) (ps ++ R)) = hasSub (t0 :: trest) R
      rw [ih R (fun c hc => hpre c (List.mem_cons_of_mem _ hc))]
      simp [isPre, ht0]

/-- If a star-free token is a prefix of the replaced text, it already was a
prefix of the original text (replacement inserts only `'*'` characters). -/
theorem isPre_replaceAll (tok : List Char) :
    ∀ msg u, u ≠ [] → '*' ∉ u →
      isPre u (replaceAll tok "****".data msg) = true → isPre u msg = true := by
  intro msg
  induction msg with
  | nil =>
      intro u hu hstar h
      simp only [replaceAll] at h
      cases u with
      | nil => exact absurd rfl hu
      | cons a as => simp [isPre] at h
  | cons c rest ih =>
      intro u hu hstar h
      simp only [replaceAll] at h
      obtain ⟨u0, u', rfl⟩ : ∃ u0 u', u = u0 :: u' := by
        cases u with
        | nil => exact absurd rfl hu
        | cons a as => exact ⟨a, as, rfl⟩
      by_cases hcond : tok ≠ [] ∧ isPre tok (c :: rest) = true
      · rw [dif_pos hcond] at h
        have h0 : (u0 == '*') = false := beq_eq_false_iff_ne.mpr
          (fun e => hstar (by simp [e]))
        simp [isPre, h0] at h
      · rw [dif_neg hcond] at h
        have h' := h
        simp only [isPre, Bool.and_eq_true] at h'
        obtain ⟨he, htail⟩ := h'
        by_cases hu' : u' = []
        · subst hu'
          simp [isPre, he]
        · have := ih u' hu' (fun hm => hstar (List.mem_cons_of_mem _ hm)) htail
          simp [isPre, he, this]

/-- Core redaction property: replacing every occurrence of a star-free token
with `"****"` leaves no occurrence of the token. -/
theorem hasSub_replaceAll (tok : List Char) (hstar : '*' ∉ tok) (htok : tok ≠ []) :
    ∀ msg, hasSub tok (replaceAll tok "****".data msg) = false := by
  have main : ∀ n msg, msg.length ≤ n →
      hasSub tok (replaceAll tok "****".data msg) = false := by
    intro n
    induction n with
    | zero =>
        intro msg hlen
        have hmsg : msg = [] := List.eq_nil_of_length_eq_zero (Nat.le_zero.mp hlen)
        subst hmsg
        simp only [replaceAll]
        exact hasSub_nil_of_ne tok htok
    | succ n ihn =>
        intro msg hlen
        cases msg with
        | nil =>
            simp only [replaceAll]
            exact hasSub_nil_of_ne tok htok
        | cons c rest =>
            simp only [replaceAll]
            by_cases hcond : tok ≠ [] ∧ isPre tok (c :: rest) = true
            · rw [dif_pos hcond]
              have habs := hasSub_stars_append tok htok hstar ['*', '*', '*', '*']
                (replaceAll tok ['*', '*', '*', '*'] (List.drop tok.length (c :: rest)))
                (by decide)
              rw [habs]
              refine ihn _ ?_
              have hlt : 1 ≤ tok.length := List.length_pos.mpr htok
              simp only [List.length_drop, List.length_cons]
              simp only [List.length_cons] at hlen
              omega
            · rw [dif_neg hcond]
              have hR : hasSub tok (replaceAll tok ['*', '*', '*', '*'] rest) = false := by
                refine ihn rest ?_
                simp only [List.length_cons] at hlen
                omega
              have hpre : isPre tok (c :: replaceAll tok ['*', '*', '*', '*'] rest) = false := by
                cases hq : isPre tok (c :: replaceAll tok ['*', '*', '*', '*'] rest) with
                | false => rfl
                | true =>
                    exfalso
                    obtain ⟨t0, t', rfl⟩ : ∃ t0 t', tok = t0 :: t' := by
                      cases tok with
                      | nil => exact absurd rfl htok
                      | cons a as => exact ⟨a, as, rfl⟩
                    simp only [isPre, Bool.and_eq_true] at hq
                    obtain ⟨he, ht⟩ := hq
                    refine hcond ⟨htok, ?_⟩
                    by_cases ht' : t' = []
                    · subst ht'
                      simp [isPre, he]
                    · have := isPre_replaceAll (t0 :: t') rest t' ht'
                        (fun hm => hstar (List.mem_cons_of_mem _ hm)) ht
                      simp [isPre, he, this]
              show (isPre tok (c :: replaceAll tok ['*', '*', '*', '*'] rest) ||
                  hasSub tok (replaceAll tok ['*', '*', '*', '*'] rest)) = false
              rw [hpre, hR]
              rfl
  intro msg
  exact main msg.length msg (Nat.le_refl _)

/-- C7, counterexample.  Python's `str.replace` scans left to right and does
not rescan replacement text, so a token containing `'*'` can be reassembled
across a replacement boundary: with token `"*a"` and message `"**aa"` the
sanitized output is `"*****a"`, which again contains `"*a"`. -/
theorem claim_C7_counterexample :
    sanitize_git_error "*a".data "**aa".data = "*****a".data ∧
    hasSub "*a".data (sanitize_git_error "*a".data "**aa".data) = true := by
  constructor <;> simp +decide [sanitize_git_error, hasSub, isPre, replaceAll]

/-- C7, amended: for every error message and every non-empty credential token
that does not contain the character `'*'` (the redaction placeholder), the
sanitized text contains no occurrence of the token; and the `detail`,
`summary` and `error` fields that the push, commit and pull paths place into
error results are exactly the sanitizer applied to the raw git error text. -/
theorem claim_C7 :
    (∀ token msg, token ≠ [] → '*' ∉ token →
      hasSub token (sanitize_git_error token msg) = false) ∧
    (∀ (pfx : PushFx) (b : List Char), pfx.remoteOk = true → pfx.branch = some b →
      pfx.pushOk = false →
      (push_notes pfx).1.2.detail = some (sanitize_git_error pfx.token pfx.pushErr)) ∧
    (∀ (cfx : CommitFx) (wt : WorkTree),
      (cfx.statusOk && !(pyStrip wt.statusOut).isEmpty) = true →
      cfx.commitOk = false →
      (commit_notes cfx wt).2.summary =
        some (if sanitize_git_error cfx.token cfx.commitErr = [] then
          "Commit failed".data else sanitize_git_error cfx.token cfx.commitErr)) ∧
    (∀ (fx : PullFx) (st : RepoState) (branch : List Char),
      fx.remoteOk = true → fx.branch = some branch → fx.pullOk = false →
      pullErrorOf ((pull_notes_with_rebase fx st).1.2) =
        some (sanitize_git_error fx.token
          (if fx.pullErr = [] then "git pull --rebase failed".data else fx.pullErr))) := by
  refine ⟨?_, ?_, ?_, ?_⟩
  · intro token msg htok hstar
    unfold sanitize_git_error
    by_cases hc : token ≠ [] ∧ hasSub token msg = true
    · rw [if_pos hc]
      exact hasSub_replaceAll token hstar htok msg
    · rw [if_neg hc]
      cases hq : hasSub token msg with
      | false => rfl
      | true => exact absurd ⟨htok, hq⟩ hc
  · intro pfx b hr hb hp
    simp [push_notes, hr, hb, hp]
  · intro cfx wt hdirty hok
    simp [commit_notes, hdirty, hok]
  · intro fx st branch hr hb hpull
    have hred : (pull_notes_with_rebase fx st).1 =
        (pullRecovery fx branch (lookupRef st.refs branch) st.remoteTip
          ⟨st.refs, fetchTipAfter fx st, st.parents, fx.pullLeavesRebase⟩).1 := by
      simp [pull_notes_with_rebase, hr, hb, hpull]
    rw [hred]
    simp [pullRecovery, pullErrorOf]

/-- Witness for `claim_C7` at concrete star-free tokens and error texts. -/
theorem claim_C7_witness :
    hasSub "sekrit".data (sanitize_git_error "sekrit".data
        "fatal: auth sekrit rejected".data) = false ∧
    (push_notes ⟨"sekrit".data, true, some "main".data, none, false,
        "denied sekrit".data⟩).1.2.detail =
      some (sanitize_git_error "sekrit".data "denied sekrit".data) :=
  ⟨claim_C7.1 "sekrit".data "fatal: auth sekrit rejected".data (by decide) (by decide),
    claim_C7.2.1 ⟨"sekrit".data, true, some "main".data, none, false,
      "denied sekrit".data⟩ "main".data rfl rfl rfl⟩

/-! ### C8: content-addressed blob hashing -/

set_option maxRecDepth 40000 in
example : sha1Hex [97, 98, 99] = "a9993e364706816aba3e25717850c26c9cd0d89d".data := by
  decide

set_option maxRecDepth 40000 in
example : compute_git_blob_sha [] =
    "e69de29bb2d1d6434b8b29ae775ad8c2e48c5391".data := by
  decide

theorem w32_lt (n : Nat) : w32 n < 4294967296 :=
  Nat.mod_lt _ (by norm_num)

theorem processChunk_lt (h : Sha1State) (chunk : List Nat) :
    (processChunk h chunk).a < 4294967296 ∧ (processChunk h chunk).b < 4294967296 ∧
    (processChunk h chunk).c < 4294967296 ∧ (processChunk h chunk).d < 4294967296 ∧
    (processChunk h chunk).e < 4294967296 :=
  ⟨w32_lt _, w32_lt _, w32_lt _, w32_lt _, w32_lt _⟩

theorem foldl_processChunk_lt (l : List (List Nat)) :
    ∀ h : Sha1State,
      h.a < 4294967296 ∧ h.b < 4294967296 ∧ h.c < 4294967296 ∧
        h.d < 4294967296 ∧ h.e < 4294967296 →
      ((l.foldl processChunk h).a < 4294967296 ∧
        (l.foldl processChunk h).b < 4294967296 ∧
        (l.foldl processChunk h).c < 4294967296 ∧
        (l.foldl processChunk h).d < 4294967296 ∧
        (l.foldl processChunk h).e < 4294967296) := by
  induction l with
  | nil => intro h hh; simpa using hh
  | cons chunk rest ih => intro h hh; exact ih _ (processChunk_lt h chunk)

theorem sha1Nat_lt (msg : List Nat) : sha1Nat msg < 2 ^ 160 := by
  unfold sha1Nat
  obtain ⟨h1, h2, h3, h4, h5⟩ :=
    foldl_processChunk_lt (chunks64 (sha1Pad msg)) sha1Init (by norm_num [sha1Init])
  have step : ∀ x y m : Nat, x < m → y < 4294967296 →
      x * 4294967296 + y < m * 4294967296 := by
    intro x y m hx hy
    calc x * 4294967296 + y < x * 4294967296 + 4294967296 := by omega
      _ = (x + 1) * 4294967296 := by ring
      _ ≤ m * 4294967296 := Nat.mul_le_mul_right _ hx
  have s1 := step _ _ _ h1 h2
  have s2 := step _ _ _ s1 h3
  have s3 := step _ _ _ s2 h4
  have s4 := step _ _ _ s3 h5
  calc _ < 4294967296 * 4294967296 * 4294967296 * 4294967296 * 4294967296 := s4
    _ = 2 ^ 160 := by norm_num

theorem findIdx_zero_append (p : List Nat) (hp : ∀ b ∈ p, b ≠ 0) (tail : List Nat) :
    List.findIdx (fun b => b == 0) (p ++ 0 :: tail) = p.length := by
  induction p with
  | nil => simp [List.findIdx_cons]
  | cons a p ih =>
      have ha : (a == 0) = false :=
        beq_eq_false_iff_ne.mpr (hp a (List.mem_cons_self _ _))
      simp [List.findIdx_cons, ha,
        ih (fun b hb => hp b (List.mem_cons_of_mem _ hb))]

theorem blobHeaderBody_nonzero (n : Nat) : ∀ b ∈ blobHeaderBody n, b ≠ 0 := by
  intro b hb
  unfold blobHeaderBody at hb
  rcases List.mem_append.mp hb with hb | hb
  · simp at hb
    rcases hb with rfl | rfl | rfl | rfl | rfl <;> decide
  · obtain ⟨c, hc, rfl⟩ := List.mem_map.mp hb
    have hd := natDigits_refSafe n c hc
    unfold refSafeChar at hd
    simp only [decide_eq_true_eq] at hd
    omega

/-- The hash input `"blob {n}\0" + content` determines the content: the
first zero byte ends the header. -/
theorem blob_preimage_inj (a b : List Nat)
    (h : blobHeader a.length ++ a = blobHeader b.length ++ b) : a = b := by
  have hsplit : ∀ c : List Nat, blobHeader c.length ++ c =
      blobHeaderBody c.length ++ 0 :: c := by
    intro c
    unfold blobHeader
    simp [List.append_assoc]
  rw [hsplit, hsplit] at h
  have h1 := findIdx_zero_append (blobHeaderBody a.length) (blobHeaderBody_nonzero _) a
  have h2 := findIdx_zero_append (blobHeaderBody b.length) (blobHeaderBody_nonzero _) b
  have hlen : (blobHeaderBody a.length).length = (blobHeaderBody b.length).length := by
    rw [← h1, ← h2, h]
  calc a = ((blobHeaderBody a.length ++ [0]) ++ a).drop
        ((blobHeaderBody a.length).length + 1) := (List.drop_left' (by simp)).symm
    _ = (blobHeaderBody a.length ++ 0 :: a).drop
        ((blobHeaderBody a.length).length + 1) := by rw [List.append_assoc]; rfl
    _ = (blobHeaderBody b.length ++ 0 :: b).drop
        ((blobHeaderBody b.length).length + 1) := by rw [h, hlen]
    _ = ((blobHeaderBody b.length ++ [0]) ++ b).drop
        ((blobHeaderBody b.length).length + 1) := by rw [List.append_assoc]; rfl
    _ = b := List.drop_left' (by simp)

/-- C8, counterexample.  The final clause of the claim asserts that any two
distinct byte strings have distinct blob content-addresses, i.e. that the
160-bit hash is injective on all byte strings — false by pigeonhole, since
there are infinitely many byte strings and finitely many digests. -/
theorem claim_C8_counterexample :
    ¬ (∀ a b : List Nat, a ≠ b →
        compute_git_blob_sha a ≠ compute_git_blob_sha b) := by
  intro hinj
  obtain ⟨x, y, hne, heq⟩ := Finite.exists_ne_map_eq_of_infinite
    (fun c : List Nat =>
      (⟨sha1Nat (blobHeader c.length ++ c), sha1Nat_lt _⟩ : Fin (2 ^ 160)))
  have hv : sha1Nat (blobHeader x.length ++ x) =
      sha1Nat (blobHeader y.length ++ y) := congrArg Fin.val heq
  refine hinj x y hne ?_
  unfold compute_git_blob_sha sha1Hex
  rw [hv]

/-- C8, amended: `_compute_git_blob_sha(content)` is the SHA-1 hex digest of
`"blob {len(content)}\0"` (UTF-8) concatenated with the content;
byte-identical contents get equal addresses; and distinct contents always
produce distinct *hash inputs* (the length-prefixed header makes the
preimage injective), so two contents share an address only in the case of an
actual SHA-1 collision — which must exist by pigeonhole (see the
counterexample), so address inequality for all distinct inputs cannot
hold. -/
theorem claim_C8 (a b : List Nat) :
    compute_git_blob_sha a = sha1Hex (blobHeader a.length ++ a) ∧
    (a = b → compute_git_blob_sha a = compute_git_blob_sha b) ∧
    (blobHeader a.length ++ a = blobHeader b.length ++ b → a = b) :=
  ⟨rfl, fun h => by rw [h], blob_preimage_inj a b⟩

/-- Witness for `claim_C8` at a concrete content. -/
theorem claim_C8_witness :
    compute_git_blob_sha [104] = sha1Hex (blobHeader [104].length ++ [104]) ∧
    compute_git_blob_sha [104] = compute_git_blob_sha [104] ∧
    ([104] : List Nat) = [104] :=
  ⟨(claim_C8 [104] [104]).1, (claim_C8 [104] [104]).2.1 rfl,
    (claim_C8 [104] [104]).2.2 rfl⟩

/-! ### C10: only managed paths are touched -/

theorem mem_upsertSha (m : List (List Char × List Char)) (k v : List Char)
    (r : List Char × List Char) (h : r ∈ upsertSha m k v) : r.1 = k ∨ r ∈ m := by
  induction m with
  | nil =>
      simp [upsertSha] at h
      subst h
      left
      rfl
  | cons p rest ih =>
      obtain ⟨k', v'⟩ := p
      by_cases hk : (k' == k) = true
      · simp only [upsertSha, if_pos hk, List.mem_cons] at h
        rcases h with rfl | h
        · left
          simpa using hk
        · right
          exact List.mem_cons_of_mem _ h
      · simp only [upsertSha, if_neg hk, List.mem_cons] at h
        rcases h with rfl | h
        · right
          exact List.mem_cons_self _ _
        · rcases ih h with h1 | h1
          · left
            exact h1
          · right
            exact List.mem_cons_of_mem _ h1

theorem mem_fetchStep (acc : List (List Char × List Char)) (e : TreeEntry)
    (r : List Char × List Char) (h : r ∈ fetchStep acc e) :
    r ∈ acc ∨ is_managed_notes_rel_path r.1 = true := by
  unfold fetchStep at h
  by_cases h1 : (e.typ == "blob".data) = true
  · rw [if_pos h1] at h
    by_cases h2 : pyStrip e.path ≠ [] ∧ is_managed_notes_rel_path (pyStrip e.path) = true
    · rw [if_pos h2] at h
      by_cases h3 : pyStrip e.sha ≠ []
      · rw [if_pos h3] at h
        rcases mem_upsertSha _ _ _ _ h with h4 | h4
        · right
          rw [h4]
          exact h2.2
        · left
          exact h4
      · rw [if_neg h3] at h
        exact Or.inl h
    · rw [if_neg h2] at h
      exact Or.inl h
  · rw [if_neg h1] at h
    exact Or.inl h

theorem mem_fetch_github_tree (entries : List TreeEntry) :
    ∀ r ∈ fetch_github_tree entries, is_managed_notes_rel_path r.1 = true := by
  have key : ∀ (es : List TreeEntry) (acc : List (List Char × List Char)),
      (∀ r ∈ acc, is_managed_notes_rel_path r.1 = true) →
      ∀ r ∈ es.foldl fetchStep acc, is_managed_notes_rel_path r.1 = true := by
    intro es
    induction es with
    | nil =>
        intro acc hacc r hr
        exact hacc r (by simpa using hr)
    | cons e rest ih =>
        intro acc hacc r hr
        simp only [List.foldl_cons] at hr
        refine ih _ ?_ r hr
        intro r' hr'
        rcases mem_fetchStep acc e r' hr' with h | h
        · exact hacc r' h
        · exact h
  exact key entries [] (by simp)

theorem mem_localNotesIndex (files : List (List Char × List Nat)) :
    ∀ f ∈ localNotesIndex files, is_managed_notes_rel_path f.1 = true := by
  intro f hf
  unfold localNotesIndex iter_local_notes_sync_paths at hf
  obtain ⟨g, hg, rfl⟩ := List.mem_map.mp hf
  exact (List.mem_filter.mp hg).2

/-- C10, confirmed: the GitHub-API backend touches only managed paths — for
every path `rel` that `_is_managed_notes_rel_path` rejects,
`auto_commit_and_push_notes` issues no create/update/delete for `rel` on the
remote, and `auto_pull_notes` issues no write/unlink of a local file at
`rel`. -/
theorem claim_C10 (entries : List TreeEntry) (files : List (List Char × List Nat))
    (fetched : List Char → Option (List Nat)) (rel : List Char)
    (hunmanaged : is_managed_notes_rel_path rel = false) :
    (∀ a ∈ auto_commit_and_push_notes entries files, remoteActionPath a ≠ rel) ∧
    (∀ a ∈ auto_pull_notes entries files fetched, localActionPath a ≠ rel) := by
  have hofmanaged : ∀ p, is_managed_notes_rel_path p = true → p ≠ rel := by
    intro p hp he
    rw [he, hunmanaged] at hp
    exact absurd hp (by decide)
  constructor
  · intro a ha
    unfold auto_commit_and_push_notes at ha
    simp only [List.mem_append] at ha
    rcases ha with (ha | ha) | ha
    · obtain ⟨f, hf, rfl⟩ := List.mem_map.mp ha
      exact hofmanaged f.1 (mem_localNotesIndex files f (List.mem_filter.mp hf).1)
    · obtain ⟨f, hf, rfl⟩ := List.mem_map.mp ha
      exact hofmanaged f.1 (mem_localNotesIndex files f (List.mem_filter.mp hf).1)
    · obtain ⟨r, hr, rfl⟩ := List.mem_map.mp ha
      exact hofmanaged r.1 (mem_fetch_github_tree entries r (List.mem_filter.mp hr).1)
  · intro a ha
    unfold auto_pull_notes at ha
    simp only [List.mem_append] at ha
    rcases ha with ha | ha
    · obtain ⟨r, hr, rfl⟩ := List.mem_map.mp ha
      exact hofmanaged r.1 (mem_fetch_github_tree entries r (List.mem_filter.mp hr).1)
    · obtain ⟨f, hf, rfl⟩ := List.mem_map.mp ha
      have hmem : f ∈ iter_local_notes_sync_paths files := (List.mem_filter.mp hf).1
      unfold iter_local_notes_sync_paths at hmem
      exact hofmanaged f.1 (List.mem_filter.mp hmem).2

set_option maxRecDepth 40000 in
/-- Witness for `claim_C10` at a one-note repository and the unmanaged path
`.git/config`. -/
theorem claim_C10_witness :
    (∀ a ∈ auto_commit_and_push_notes [⟨"blob".data, "a.md".data, "x".data⟩]
        [("a.md".data, [104]), (".git/config".data, [1])],
      remoteActionPath a ≠ ".git/config".data) ∧
    (∀ a ∈ auto_pull_notes [⟨"blob".data, "a.md".data, "x".data⟩]
        [("a.md".data, [104]), (".git/config".data, [1])] (fun _ => none),
      localActionPath a ≠ ".git/config".data) :=
  claim_C10 [⟨"blob".data, "a.md".data, "x".data⟩]
    [("a.md".data, [104]), (".git/config".data, [1])] (fun _ => none)
    ".git/config".data (by decide)

/-! ### C9: scheduler ordering and push gating (modelled from the spec) -/

theorem commitStep_events (s : SchedSettings) (now : Nat) (fx : TickFx)
    (st : SchedState) :
    (commitStep s now fx st).2 = [] ∨
      (commitStep s now fx st).2 = [SchedEvent.commitInvoked] := by
  unfold commitStep
  split
  · right
    rfl
  · left
    rfl

theorem pullStep_events (s : SchedSettings) (now : Nat) (fx : TickFx)
    (st : SchedState) :
    (pullStep s now fx st).2 = [] ∨
      (pullStep s now fx st).2 = [SchedEvent.pullInvoked] := by
  unfold pullStep
  split
  · right
    rfl
  · left
    rfl

/-- C9, confirmed (modelled from the spec — the scheduler source is not in
this snapshot): within one tick the attempt order is commit, then pull, then
push (the event trace decomposes in that order, each leg contributing only
its own events); and whenever the push is due while the shared state —
as updated by this tick's commit and pull legs — has an active conflict, or
a last pull status outside ok/skipped, or a last commit status outside
ok/skipped, the push leg records a skip with a reason and the transport is
not invoked (no `pushInvoked` event anywhere in the tick). -/
theorem claim_C9 (s : SchedSettings) (now : Nat) (fx : TickFx) (st : SchedState) :
    ((schedulerTick s now fx st).2 =
      (commitStep s now fx st).2 ++
        (pullStep s now fx (commitStep s now fx st).1).2 ++
        (pushStep s now fx (pullStep s now fx (commitStep s now fx st).1).1).2) ∧
    ((commitStep s now fx st).2 = [] ∨
      (commitStep s now fx st).2 = [SchedEvent.commitInvoked]) ∧
    ((pullStep s now fx (commitStep s now fx st).1).2 = [] ∨
      (pullStep s now fx (commitStep s now fx st).1).2 = [SchedEvent.pullInvoked]) ∧
    (opDue s.pushEnabled s.pushInterval
        (pullStep s now fx (commitStep s now fx st).1).1.pushRec.lastRun now = true →
      ((pullStep s now fx (commitStep s now fx st).1).1.conflict.active = true ∨
        okOrSkipped
          (pullStep s now fx (commitStep s now fx st).1).1.pullRec.lastStatus = false ∨
        okOrSkipped
          (pullStep s now fx (commitStep s now fx st).1).1.commitRec.lastStatus = false) →
      SchedEvent.pushInvoked ∉ (schedulerTick s now fx st).2 ∧
      ∃ r, SchedEvent.pushSkipped r ∈ (schedulerTick s now fx st).2) := by
  refine ⟨rfl, commitStep_events s now fx st, pullStep_events s now fx _, ?_⟩
  intro hdue hgate
  have hreason : ∃ r,
      pushGateReason (pullStep s now fx (commitStep s now fx st).1).1 = some r := by
    unfold pushGateReason
    by_cases ha :
        (pullStep s now fx (commitStep s now fx st).1).1.conflict.active = true
    · exact ⟨_, by rw [if_pos ha]⟩
    · have ha' :
          (pullStep s now fx (commitStep s now fx st).1).1.conflict.active = false :=
        Bool.eq_false_iff.mpr ha
      by_cases hb : okOrSkipped
          (pullStep s now fx (commitStep s now fx st).1).1.pullRec.lastStatus = false
      · exact ⟨"last pull not clean".data, by simp [ha', hb]⟩
      · have hc : okOrSkipped
            (pullStep s now fx (commitStep s now fx st).1).1.commitRec.lastStatus
              = false := by
          rcases hgate with h | h | h
          · exact absurd h ha
          · exact absurd h hb
          · exact h
        have hb' : okOrSkipped
            (pullStep s now fx (commitStep s now fx st).1).1.pullRec.lastStatus
              = true := by
          rcases hq : okOrSkipped
              (pullStep s now fx (commitStep s now fx st).1).1.pullRec.lastStatus with
            _ | _
          · exact absurd hq hb
          · rfl
        exact ⟨"last commit not clean".data, by simp [ha', hb', hc]⟩
  obtain ⟨r, hr⟩ := hreason
  have hpush : (pushStep s now fx (pullStep s now fx (commitStep s now fx st).1).1).2 =
      [SchedEvent.pushSkipped r] := by
    unfold pushStep
    rw [if_pos hdue, hr]
  constructor
  · show SchedEvent.pushInvoked ∉
      (commitStep s now fx st).2 ++
        (pullStep s now fx (commitStep s now fx st).1).2 ++
        (pushStep s now fx (pullStep s now fx (commitStep s now fx st).1).1).2
    rcases commitStep_events s now fx st with hc | hc <;>
      rcases pullStep_events s now fx (commitStep s now fx st).1 with hp | hp <;>
        simp [hc, hp, hpush]
  · refine ⟨r, ?_⟩
    show SchedEvent.pushSkipped r ∈
      (commitStep s now fx st).2 ++
        (pullStep s now fx (commitStep s now fx st).1).2 ++
        (pushStep s now fx (pullStep s now fx (commitStep s now fx st).1).1).2
    simp [hpush]

/-- Witness for `claim_C9`: a due push while a conflict is active is skipped
without any transport invocation. -/
theorem claim_C9_witness :
    SchedEvent.pushInvoked ∉
      (schedulerTick ⟨false, false, true, 60, 60, 60⟩ 100
        ⟨"ok".data, "ok".data, none, none, "ok".data⟩
        ⟨⟨0, "ok".data⟩, ⟨0, "ok".data⟩, ⟨0, "ok".data⟩,
          ⟨true, some "conflict-x".data, none⟩⟩).2 ∧
    ∃ r, SchedEvent.pushSkipped r ∈
      (schedulerTick ⟨false, false, true, 60, 60, 60⟩ 100
        ⟨"ok".data, "ok".data, none, none, "ok".data⟩
        ⟨⟨0, "ok".data⟩, ⟨0, "ok".data⟩, ⟨0, "ok".data⟩,
          ⟨true, some "conflict-x".data, none⟩⟩).2 :=
  (claim_C9 ⟨false, false, true, 60, 60, 60⟩ 100
    ⟨"ok".data, "ok".data, none, none, "ok".data⟩
    ⟨⟨0, "ok".data⟩, ⟨0, "ok".data⟩, ⟨0, "ok".data⟩,
      ⟨true, some "conflict-x".data, none⟩⟩).2.2.2 (by decide) (Or.inl (by decide))

/-- Witness for `claim_C3` at a concrete ASCII hostname. -/
theorem claim_C3_witness :
    conflictBranchName ⟨2026, 1, 2, 3, 4, 5⟩ "web-01.example.org".data =
        claimBranchName ⟨2026, 1, 2, 3, 4, 5⟩ "web-01.example.org".data ∧
      (∀ c ∈ conflictBranchName ⟨2026, 1, 2, 3, 4, 5⟩ "web-01.example.org".data,
        refSafeChar c = true) :=
  ⟨(claim_C3 ⟨2026, 1, 2, 3, 4, 5⟩ "web-01.example.org".data).1,
    (claim_C3 ⟨2026, 1, 2, 3, 4, 5⟩ "web-01.example.org".data).2 (by decide)⟩

end NotesSync
